import Mathlib

/-!
Verification of the Health_connector document pipeline core against its
natural-language specification.  Each definition is a shallow embedding of a
function of the repository (file and symbol named in its doc comment); the
theorems settle the frozen claims.
-/

namespace HealthConnector

/-! ### Text chunker — `src/custom/transformers/arxiv/text/chunker.py` -/

/-- Char-level scanner behind `findWords`: collects maximal runs of
non-whitespace characters (the accumulator holds the current run
reversed). -/
def wordsAux : List Char → List Char → List String
  | [], acc => if acc = [] then [] else [String.mk acc.reverse]
  | c :: rest, acc =>
    if c.isWhitespace then
      if acc = [] then wordsAux rest []
      else String.mk acc.reverse :: wordsAux rest []
    else wordsAux rest (c :: acc)

/-- Tokenization used throughout the chunker: Python
`re.findall(r"\S+", text)` (and `text.split()`), i.e. the maximal runs of
non-whitespace characters. -/
def findWords (text : String) : List String :=
  wordsAux text.data []

/-- Python `str.strip()`: drop leading and trailing whitespace. -/
def pyStrip (s : String) : String :=
  String.mk
    (((s.data.dropWhile Char.isWhitespace).reverse.dropWhile
      Char.isWhitespace).reverse)

/-- `ChunkMetadata` of `src/custom/schemas/chunk.py`. -/
structure ChunkMetadata where
  chunk_index : ℕ
  section_title : String
  word_count : ℕ
  start_char : ℕ
  end_char : ℕ
  overlap_with_previous : ℕ
  overlap_with_next : ℕ
deriving DecidableEq, Repr

/-- `TextChunk` of `src/custom/schemas/chunk.py`. -/
structure TextChunk where
  text : String
  arxiv_id : String
  metadata : ChunkMetadata
deriving DecidableEq, Repr

/-- Chunking parameters of `TextChunker.__init__`.  The constructor raises
`ValueError("Overlap must be smaller than chunk size")` when
`overlap_size >= chunk_size`, so every live chunker satisfies the embedded
constraint. -/
structure ChunkingConfig where
  chunk_size : ℕ
  overlap_size : ℕ
  min_chunk_size : ℕ
  overlap_lt_chunk : overlap_size < chunk_size

/-- `TextChunker._build_chunk`. -/
def build_chunk (cfg : ChunkingConfig) (text : String) (idx : ℕ)
    (source_id section_title : String) : TextChunk :=
  { text := text
    arxiv_id := source_id
    metadata :=
      { chunk_index := idx
        section_title := section_title
        word_count := (findWords text).length
        start_char := 0
        end_char := text.length
        overlap_with_previous := if 0 < idx then cfg.overlap_size else 0
        overlap_with_next := cfg.overlap_size } }

/-- The `while pos < len(words)` loop of `TextChunker._chunk_raw_text`:
window `words[pos:pos+chunk_size]` clamped to the token count, advancing by
`chunk_size - overlap_size`. -/
def slide (cfg : ChunkingConfig) (words : List String)
    (source_id section_title : String) (pos idx : ℕ) : List TextChunk :=
  if h : pos < words.length then
    let e := min (pos + cfg.chunk_size) words.length
    let part := String.intercalate " " ((words.drop pos).take (e - pos))
    build_chunk cfg part idx source_id section_title ::
      slide cfg words source_id section_title
        (pos + (cfg.chunk_size - cfg.overlap_size)) (idx + 1)
  else []
termination_by words.length - pos
decreasing_by
  have hstep : 0 < cfg.chunk_size - cfg.overlap_size :=
    Nat.sub_pos_of_lt cfg.overlap_lt_chunk
  omega

/-- `TextChunker._chunk_raw_text`. -/
def chunk_raw_text (cfg : ChunkingConfig) (text source_id : String)
    (start_idx : ℕ) (section_title : String) : List TextChunk :=
  let words := findWords text
  if words.length ≤ cfg.min_chunk_size then
    [build_chunk cfg text start_idx source_id section_title]
  else
    slide cfg words source_id section_title 0 start_idx

/-- `PaperSection` as consumed by the chunker: a title and body content. -/
structure PaperSection where
  title : String
  content : String
deriving DecidableEq, Repr

/-- The `for sec in pdf.sections` loop of `TextChunker._chunk_by_sections`,
with the mutable `chunks`/`buffer`/`idx` threaded explicitly. -/
def sectionsLoop (cfg : ChunkingConfig) (source_id : String) :
    List PaperSection → List TextChunk → List String → ℕ →
      List TextChunk × List String × ℕ
  | [], chunks, buffer, idx => (chunks, buffer, idx)
  | sec :: rest, chunks, buffer, idx =>
    let text := pyStrip sec.content
    let wc := (findWords text).length
    if wc < 100 then
      sectionsLoop cfg source_id rest chunks (buffer ++ [text]) idx
    else
      let flushed : List TextChunk × ℕ :=
        if buffer = [] then (chunks, idx)
        else
          (chunks ++ [build_chunk cfg (String.intercalate "\n\n" buffer) idx
            source_id "Combined Intro/Small Sections"], idx + 1)
      if wc ≤ 800 then
        sectionsLoop cfg source_id rest
          (flushed.1 ++ [build_chunk cfg text flushed.2 source_id sec.title])
          [] (flushed.2 + 1)
      else
        let split := chunk_raw_text cfg text source_id flushed.2 sec.title
        sectionsLoop cfg source_id rest (flushed.1 ++ split) []
          (flushed.2 + split.length)

/-- `TextChunker._chunk_by_sections`: run the section loop from an empty
accumulator, then flush any remaining buffer as a final
`"Trailing Sections"` chunk. -/
def chunk_by_sections (cfg : ChunkingConfig) (sections : List PaperSection)
    (source_id : String) : List TextChunk :=
  let r := sectionsLoop cfg source_id sections [] [] 0
  if r.2.1 = [] then r.1
  else
    r.1 ++ [build_chunk cfg (String.intercalate "\n\n" r.2.1) r.2.2
      source_id "Trailing Sections"]

/-- The fields of `PdfContent` the chunker reads (other fields of
`src/custom/transformers/schemas` never influence chunking). -/
structure PdfContent where
  sections : List PaperSection
  raw_text : String
  arxiv_id : Option String
  source_file : Option String

/-- `pdf.metadata.get("arxiv_id") or pdf.metadata.get("source_file", "unknown")`
with Python truthiness: a missing key or an empty string falls through. -/
def source_id (pdf : PdfContent) : String :=
  match pdf.arxiv_id with
  | some s => if s = "" then pdf.source_file.getD "unknown" else s
  | none => pdf.source_file.getD "unknown"

/-- `TextChunker._chunk_pdf`: section-aware path when `pdf.sections` is
non-empty, else sliding-window chunking of the raw text. -/
def chunk_pdf (cfg : ChunkingConfig) (pdf : PdfContent) : List TextChunk :=
  if pdf.sections ≠ [] then chunk_by_sections cfg pdf.sections (source_id pdf)
  else chunk_raw_text cfg pdf.raw_text (source_id pdf) 0 "Body"

/-- One step of `slide` when the window still starts inside the tokens. -/
theorem slide_cons (cfg : ChunkingConfig) (ws : List String)
    (sid st : String) (pos idx : ℕ) (h : pos < ws.length) :
    slide cfg ws sid st pos idx =
      build_chunk cfg
        (String.intercalate " "
          ((ws.drop pos).take (min (pos + cfg.chunk_size) ws.length - pos)))
        idx sid st ::
      slide cfg ws sid st (pos + (cfg.chunk_size - cfg.overlap_size)) (idx + 1) := by
  rw [slide, dif_pos h]

/-- `slide` stops once the window would start at or past the end. -/
theorem slide_nil (cfg : ChunkingConfig) (ws : List String)
    (sid st : String) (pos idx : ℕ) (h : ¬ pos < ws.length) :
    slide cfg ws sid st pos idx = [] := by
  rw [slide, dif_neg h]

/-- Every chunk in `cs` was produced by `_build_chunk` for document `sid`
at its own recorded running index. -/
def FromBuild (cfg : ChunkingConfig) (sid : String) (cs : List TextChunk) : Prop :=
  ∀ c ∈ cs, ∃ t j ttl, c = build_chunk cfg t j sid ttl

/-- The chunks `slide` emits are `build_chunk`s whose indices are the
consecutive run starting at the initial running counter. -/
theorem slide_spec (cfg : ChunkingConfig) (ws : List String) (sid st : String) :
    ∀ n pos idx, ws.length - pos ≤ n →
      ((slide cfg ws sid st pos idx).map (fun c => c.metadata.chunk_index) =
        List.range' idx (slide cfg ws sid st pos idx).length ∧
       ∀ c ∈ slide cfg ws sid st pos idx, ∃ t j, c = build_chunk cfg t j sid st) := by
  intro n
  induction n with
  | zero =>
    intro pos idx h
    rw [slide_nil _ _ _ _ _ _ (by omega)]
    simp
  | succ n ih =>
    intro pos idx h
    by_cases hp : pos < ws.length
    · rw [slide_cons _ _ _ _ _ _ hp]
      have hstep : 0 < cfg.chunk_size - cfg.overlap_size :=
        Nat.sub_pos_of_lt cfg.overlap_lt_chunk
      obtain ⟨ih1, ih2⟩ :=
        ih (pos + (cfg.chunk_size - cfg.overlap_size)) (idx + 1) (by omega)
      constructor
      · simp only [List.map_cons, List.length_cons, List.range'_succ, ih1,
          build_chunk]
      · intro c hc
        rw [List.mem_cons] at hc
        rcases hc with rfl | hc
        · exact ⟨_, idx, rfl⟩
        · exact ih2 c hc
    · rw [slide_nil _ _ _ _ _ _ hp]
      simp

/-- The chunks `_chunk_raw_text` emits are `build_chunk`s with consecutive
indices from `start_idx`, and at least one chunk is always emitted. -/
theorem chunk_raw_text_spec (cfg : ChunkingConfig) (text sid : String)
    (k : ℕ) (st : String) :
    ((chunk_raw_text cfg text sid k st).map (fun c => c.metadata.chunk_index) =
      List.range' k (chunk_raw_text cfg text sid k st).length) ∧
    (∀ c ∈ chunk_raw_text cfg text sid k st, ∃ t j, c = build_chunk cfg t j sid st) ∧
    chunk_raw_text cfg text sid k st ≠ [] := by
  by_cases hs : (findWords text).length ≤ cfg.min_chunk_size
  · simp only [chunk_raw_text, if_pos hs]
    refine ⟨by simp [build_chunk], ?_, by simp⟩
    intro c hc
    rw [List.mem_singleton] at hc
    exact ⟨_, k, hc⟩
  · simp only [chunk_raw_text, if_neg hs]
    have h := slide_spec cfg (findWords text) sid st (findWords text).length 0 k
      (by omega)
    refine ⟨h.1, h.2, ?_⟩
    rw [slide_cons _ _ _ _ _ _ (by omega)]
    exact List.cons_ne_nil _ _

/-- Appending one `build_chunk` carrying the next free index preserves the
running-counter invariant. -/
theorem append_one_build (cfg : ChunkingConfig) (sid : String)
    (chunks : List TextChunk) (t ttl : String)
    (h1 : chunks.map (fun c => c.metadata.chunk_index) =
      List.range' 0 chunks.length)
    (h3 : FromBuild cfg sid chunks) :
    ((chunks ++ [build_chunk cfg t chunks.length sid ttl]).map
        (fun c => c.metadata.chunk_index) =
      List.range' 0 (chunks ++ [build_chunk cfg t chunks.length sid ttl]).length) ∧
    FromBuild cfg sid (chunks ++ [build_chunk cfg t chunks.length sid ttl]) := by
  constructor
  · rw [List.map_append, h1, List.length_append, List.length_singleton,
      List.range'_1_concat]
    simp [build_chunk]
  · intro c hc
    rw [List.mem_append, List.mem_singleton] at hc
    rcases hc with hc | rfl
    · exact h3 c hc
    · exact ⟨t, chunks.length, ttl, rfl⟩

/-- Appending a run of `build_chunk`s whose indices continue the counter
preserves the running-counter invariant. -/
theorem append_run_build (cfg : ChunkingConfig) (sid st : String)
    (chunks more : List TextChunk)
    (h1 : chunks.map (fun c => c.metadata.chunk_index) =
      List.range' 0 chunks.length)
    (hm : more.map (fun c => c.metadata.chunk_index) =
      List.range' chunks.length more.length)
    (h3 : FromBuild cfg sid chunks)
    (h4 : ∀ c ∈ more, ∃ t j, c = build_chunk cfg t j sid st) :
    ((chunks ++ more).map (fun c => c.metadata.chunk_index) =
      List.range' 0 (chunks ++ more).length) ∧
    FromBuild cfg sid (chunks ++ more) := by
  constructor
  · rw [List.map_append, h1, hm, List.length_append]
    have := List.range'_append_1 0 chunks.length more.length
    simpa [Nat.add_comm] using this
  · intro c hc
    rw [List.mem_append] at hc
    rcases hc with hc | hc
    · exact h3 c hc
    · obtain ⟨t, j, rfl⟩ := h4 c hc
      exact ⟨t, j, st, rfl⟩

theorem sectionsLoop_spec (cfg : ChunkingConfig) (sid : String) :
    ∀ (secs : List PaperSection) (chunks : List TextChunk)
      (buffer : List String) (idx : ℕ),
      chunks.map (fun c => c.metadata.chunk_index) =
        List.range' 0 chunks.length →
      idx = chunks.length →
      FromBuild cfg sid chunks →
      ((sectionsLoop cfg sid secs chunks buffer idx).1.map
          (fun c => c.metadata.chunk_index) =
        List.range' 0 (sectionsLoop cfg sid secs chunks buffer idx).1.length) ∧
      (sectionsLoop cfg sid secs chunks buffer idx).2.2 =
        (sectionsLoop cfg sid secs chunks buffer idx).1.length ∧
      FromBuild cfg sid (sectionsLoop cfg sid secs chunks buffer idx).1 := by
  intro secs
  induction secs with
  | nil =>
    intro chunks buffer idx h1 h2 h3
    simp only [sectionsLoop]
    exact ⟨h1, h2, h3⟩
  | cons sec rest ih =>
    intro chunks buffer idx h1 h2 h3
    simp only [sectionsLoop]
    by_cases hw : (findWords (pyStrip sec.content)).length < 100
    · rw [if_pos hw]
      exact ih chunks (buffer ++ [(pyStrip sec.content)]) idx h1 h2 h3
    · rw [if_neg hw]
      subst h2
      by_cases hb : buffer = []
      · rw [if_pos hb]
        by_cases h8 : (findWords (pyStrip sec.content)).length ≤ 800
        · rw [if_pos h8]
          obtain ⟨g1, g2⟩ := append_one_build cfg sid chunks (pyStrip sec.content)
            sec.title h1 h3
          exact ih _ [] _ g1 (by simp) g2
        · rw [if_neg h8]
          obtain ⟨s1, s2, _⟩ := chunk_raw_text_spec cfg (pyStrip sec.content) sid
            chunks.length sec.title
          obtain ⟨g1, g2⟩ := append_run_build cfg sid sec.title chunks _ h1 s1 h3 s2
          exact ih _ [] _ g1 (by simp) g2
      · rw [if_neg hb]
        obtain ⟨f1, f2⟩ := append_one_build cfg sid chunks
          (String.intercalate "\n\n" buffer) "Combined Intro/Small Sections" h1 h3
        by_cases h8 : (findWords (pyStrip sec.content)).length ≤ 800
        · rw [if_pos h8]
          obtain ⟨g1, g2⟩ := append_one_build cfg sid _ (pyStrip sec.content) sec.title
            f1 f2
          refine ih _ [] _ ?_ (by simp) ?_
          · simpa using g1
          · simpa using g2
        · rw [if_neg h8]
          obtain ⟨s1, s2, _⟩ := chunk_raw_text_spec cfg (pyStrip sec.content) sid
            (chunks.length + 1) sec.title
          obtain ⟨g1, g2⟩ := append_run_build cfg sid sec.title _ _ f1 (by simpa using s1) f2 s2
          refine ih _ [] _ (by simpa using g1) (by simp; omega) (by simpa using g2)

/-- `_chunk_by_sections` emits `build_chunk`s whose indices are
`0, 1, 2, …` in emission order. -/
theorem chunk_by_sections_spec (cfg : ChunkingConfig) (sid : String)
    (sections : List PaperSection) :
    ((chunk_by_sections cfg sections sid).map (fun c => c.metadata.chunk_index) =
      List.range' 0 (chunk_by_sections cfg sections sid).length) ∧
    FromBuild cfg sid (chunk_by_sections cfg sections sid) := by
  obtain ⟨h1, h2, h3⟩ := sectionsLoop_spec cfg sid sections [] [] 0 (by simp)
    (by simp) (by intro c hc; simp at hc)
  unfold chunk_by_sections
  by_cases hb : (sectionsLoop cfg sid sections [] [] 0).2.1 = []
  · rw [if_pos hb]
    exact ⟨h1, h3⟩
  · rw [if_neg hb]
    rw [h2]
    exact append_one_build cfg sid _ _ _ h1 h3

/-- C7: Across all emission paths of the chunker (combined small-section
flushes, single-section chunks, and sliding-window chunks), the emitted
chunk_index values are exactly `0, 1, 2, …` in emission order — hence unique
and strictly increasing; `overlap_with_previous` is `overlap_size` for every
chunk but the document's first (which gets `0`); and `overlap_with_next` is
`overlap_size` for every chunk, the last included. -/
theorem chunker_index_and_overlap_invariants (cfg : ChunkingConfig)
    (pdf : PdfContent) :
    ((chunk_pdf cfg pdf).map (fun c => c.metadata.chunk_index) =
      List.range (chunk_pdf cfg pdf).length) ∧
    (∀ i (h : i < (chunk_pdf cfg pdf).length),
      ((chunk_pdf cfg pdf).get ⟨i, h⟩).metadata.overlap_with_previous =
        if i = 0 then 0 else cfg.overlap_size) ∧
    (∀ i (h : i < (chunk_pdf cfg pdf).length),
      ((chunk_pdf cfg pdf).get ⟨i, h⟩).metadata.overlap_with_next =
        cfg.overlap_size) := by
  have key : ((chunk_pdf cfg pdf).map (fun c => c.metadata.chunk_index) =
      List.range' 0 (chunk_pdf cfg pdf).length) ∧
      FromBuild cfg (source_id pdf) (chunk_pdf cfg pdf) := by
    unfold chunk_pdf
    by_cases hs : pdf.sections ≠ []
    · rw [if_pos hs]
      exact chunk_by_sections_spec cfg (source_id pdf) pdf.sections
    · rw [if_neg hs]
      obtain ⟨r1, r2, _⟩ := chunk_raw_text_spec cfg pdf.raw_text
        (source_id pdf) 0 "Body"
      refine ⟨r1, ?_⟩
      intro c hc
      obtain ⟨t, j, rfl⟩ := r2 c hc
      exact ⟨t, j, "Body", rfl⟩
  obtain ⟨hmap, hshape⟩ := key
  have hidx : ∀ i (h : i < (chunk_pdf cfg pdf).length),
      ((chunk_pdf cfg pdf).get ⟨i, h⟩).metadata.chunk_index = i := by
    intro i h
    have h2 : i < ((chunk_pdf cfg pdf).map
        (fun c => c.metadata.chunk_index)).length := by simpa using h
    have e := List.getElem_of_eq hmap h2
    rw [List.getElem_map] at e
    rw [List.getElem_range'] at e
    simpa using e
  refine ⟨by rwa [List.range_eq_range'], ?_, ?_⟩
  · intro i h
    obtain ⟨t, j, ttl, hc⟩ := hshape _ (List.get_mem _ i h)
    have hj : j = i := by
      have hi := hidx i h
      rw [hc] at hi
      simpa [build_chunk] using hi
    rw [hc, hj]
    by_cases hi0 : i = 0
    · simp [build_chunk, hi0]
    · simp [build_chunk, hi0, Nat.pos_of_ne_zero hi0]
  · intro i h
    obtain ⟨t, j, ttl, hc⟩ := hshape _ (List.get_mem _ i h)
    rw [hc]
    simp [build_chunk]

/-- Concrete document used by the C7 witness. -/
def pdfW : PdfContent :=
  { sections := []
    raw_text := "tiny text"
    arxiv_id := some "idW"
    source_file := none }

/-- Concrete configuration used by the witnesses. -/
def cfgW : ChunkingConfig := ⟨10, 2, 5, by omega⟩

theorem chunker_index_and_overlap_invariants_witness :
    0 < (chunk_pdf cfgW pdfW).length ∧
    ((chunk_pdf cfgW pdfW).get ⟨0, by decide⟩).metadata.overlap_with_previous
      = 0 := by
  refine ⟨by decide, ?_⟩
  have h := (chunker_index_and_overlap_invariants cfgW pdfW).2.1 0 (by decide)
  simpa using h

/-- C2: a span of exactly 15 whitespace-separated words, with
`chunk_size = 10`, `overlap_size = 2` and `min_chunk_size < 15`, yields
exactly two chunks: words[0:10] then words[8:15] (7 words), with
`overlap_with_previous` 0 and 2 respectively. -/
theorem chunker_fifteen_words (cfg : ChunkingConfig) (text sid st : String)
    (ws : List String) (hws : findWords text = ws) (hlen : ws.length = 15)
    (hc : cfg.chunk_size = 10) (ho : cfg.overlap_size = 2)
    (hm : cfg.min_chunk_size < 15) :
    chunk_raw_text cfg text sid 0 st =
      [build_chunk cfg (String.intercalate " " (ws.take 10)) 0 sid st,
       build_chunk cfg (String.intercalate " " (ws.drop 8)) 1 sid st] ∧
    (ws.drop 8).length = 7 ∧
    (build_chunk cfg (String.intercalate " " (ws.take 10)) 0 sid
      st).metadata.overlap_with_previous = 0 ∧
    (build_chunk cfg (String.intercalate " " (ws.drop 8)) 1 sid
      st).metadata.overlap_with_previous = cfg.overlap_size := by
  subst hws
  have hd : ((findWords text).drop 8).length = 7 := by
    rw [List.length_drop, hlen]
  refine ⟨?_, hd, rfl, rfl⟩
  obtain ⟨cs, os, ms, hv⟩ := cfg
  simp only at hc ho hm
  subst hc ho
  simp only [chunk_raw_text]
  rw [if_neg (by omega)]
  rw [slide_cons _ _ _ _ _ _ (by omega)]
  rw [slide_cons _ _ _ _ _ _ (by dsimp only; omega)]
  rw [slide_nil _ _ _ _ _ _ (by dsimp only; omega)]
  rw [hlen, List.drop_zero]
  norm_num
  rw [List.take_of_length_le (le_of_eq hd)]

/-- The 15-word input used by the C2 witness. -/
def text15 : String := "a b c d e f g h i j k l m n o"

/-- Its token list. -/
def words15 : List String :=
  ["a","b","c","d","e","f","g","h","i","j","k","l","m","n","o"]

theorem chunker_fifteen_words_witness :
    chunk_raw_text cfgW text15 "doc" 0 "Body" =
      [build_chunk cfgW (String.intercalate " " (words15.take 10)) 0 "doc" "Body",
       build_chunk cfgW (String.intercalate " " (words15.drop 8)) 1 "doc" "Body"] ∧
    (words15.drop 8).length = 7 ∧
    (build_chunk cfgW (String.intercalate " " (words15.take 10)) 0 "doc"
      "Body").metadata.overlap_with_previous = 0 ∧
    (build_chunk cfgW (String.intercalate " " (words15.drop 8)) 1 "doc"
      "Body").metadata.overlap_with_previous = cfgW.overlap_size :=
  chunker_fifteen_words cfgW text15 "doc" "Body" words15 (by decide)
    (by decide) rfl rfl (by decide)

/-- C10: a document with no sections always chunks to a non-empty list, and
when the raw text has at most `min_chunk_size` whitespace tokens (zero
included) the result is exactly one chunk holding the whole span verbatim. -/
theorem chunker_no_sections_never_empty (cfg : ChunkingConfig)
    (pdf : PdfContent) (hsec : pdf.sections = []) :
    chunk_pdf cfg pdf ≠ [] ∧
    ((findWords pdf.raw_text).length ≤ cfg.min_chunk_size →
      chunk_pdf cfg pdf =
        [build_chunk cfg pdf.raw_text 0 (source_id pdf) "Body"] ∧
      ∀ c ∈ chunk_pdf cfg pdf, c.text = pdf.raw_text) := by
  have hroute : chunk_pdf cfg pdf =
      chunk_raw_text cfg pdf.raw_text (source_id pdf) 0 "Body" := by
    unfold chunk_pdf
    rw [if_neg (by simp [hsec])]
  constructor
  · rw [hroute]
    exact (chunk_raw_text_spec cfg pdf.raw_text (source_id pdf) 0 "Body").2.2
  · intro hsmall
    have hone : chunk_pdf cfg pdf =
        [build_chunk cfg pdf.raw_text 0 (source_id pdf) "Body"] := by
      rw [hroute]
      simp only [chunk_raw_text, if_pos hsmall]
    refine ⟨hone, ?_⟩
    intro c hc
    rw [hone, List.mem_singleton] at hc
    rw [hc]
    rfl

theorem chunker_no_sections_never_empty_witness :
    chunk_pdf cfgW ⟨[], "", some "idE", none⟩ ≠ [] ∧
    chunk_pdf cfgW ⟨[], "", some "idE", none⟩ =
      [build_chunk cfgW "" 0 "idE" "Body"] := by
  have h := chunker_no_sections_never_empty cfgW ⟨[], "", some "idE", none⟩ rfl
  refine ⟨h.1, ?_⟩
  have h2 := (h.2 (by decide)).1
  rwa [(by decide : source_id ⟨[], "", some "idE", none⟩ = "idE")] at h2

/-! ### PDF validation and parsing — `src/custom/transformers/arxiv/pdf/engine.py` -/

/-- `b"%PDF-"`, the magic bytes checked by `_validate_pdf`. -/
def PDF_MAGIC : List ℕ := [0x25, 0x50, 0x44, 0x46, 0x2D]

/-- What `_validate_pdf` observes of a file on disk: its bytes (`st_size` is
their count, `f.read(8)` their first eight) and the page count reported by
`pypdfium2`. -/
structure PdfFileOnDisk where
  content : List ℕ
  pages : ℕ
deriving DecidableEq, Repr

/-- The distinct `PDFValidationError` reasons raised by `_validate_pdf`, in
source order: `"File not found: …"`, `"Empty PDF file"`,
`"PDF exceeds size limit: …"`, `"Invalid PDF header: Not a PDF"`,
`"Exceeds max pages (…)"`. -/
inductive PDFValidationError where
  | fileNotFound
  | emptyFile
  | exceedsSizeLimit
  | invalidHeader
  | exceedsMaxPages
deriving DecidableEq, Repr

/-- `DoclingEngine._validate_pdf` (a `none` file models a path for which
`pdf_path.exists()` is false).  Checks run in source order and raise on the
first failure. -/
def validate_pdf (max_file_size_bytes max_pages : ℕ)
    (file : Option PdfFileOnDisk) : Except PDFValidationError Unit :=
  match file with
  | none => .error .fileNotFound
  | some f =>
    if f.content.length = 0 then .error .emptyFile
    else if f.content.length > max_file_size_bytes then .error .exceedsSizeLimit
    else if ¬ (PDF_MAGIC.isPrefixOf (f.content.take 8)) then
      .error .invalidHeader
    else if f.pages > max_pages then .error .exceedsMaxPages
    else .ok ()

/-- C6: `_validate_pdf` checks existence, then size (zero, then ceiling),
then the `%PDF-` signature, then the page ceiling, short-circuiting with a
distinct reason each — so a zero-byte file always fails with the
size-specific reason and never with the header reason, and a header or
page-count failure implies every earlier check passed. -/
theorem validator_check_order (ms mp : ℕ) (f : PdfFileOnDisk) :
    (validate_pdf ms mp none = .error .fileNotFound) ∧
    (f.content.length = 0 →
      validate_pdf ms mp (some f) = .error .emptyFile) ∧
    (f.content.length = 0 →
      validate_pdf ms mp (some f) ≠ .error .invalidHeader) ∧
    (validate_pdf ms mp (some f) = .error .exceedsSizeLimit →
      0 < f.content.length ∧ ms < f.content.length) ∧
    (validate_pdf ms mp (some f) = .error .invalidHeader →
      0 < f.content.length ∧ f.content.length ≤ ms) ∧
    (validate_pdf ms mp (some f) = .error .exceedsMaxPages →
      0 < f.content.length ∧ f.content.length ≤ ms ∧
      PDF_MAGIC.isPrefixOf (f.content.take 8) = true) ∧
    List.Pairwise (· ≠ ·)
      [PDFValidationError.fileNotFound, .emptyFile, .exceedsSizeLimit,
       .invalidHeader, .exceedsMaxPages] := by
  refine ⟨rfl, ?_, ?_, ?_, ?_, ?_, by decide⟩
  · intro h0
    simp [validate_pdf, h0]
  · intro h0
    simp [validate_pdf, h0]
  · intro h
    simp only [validate_pdf] at h
    split at h
    · simp at h
    · next h0 =>
      split at h
      · next h1 => exact ⟨Nat.pos_of_ne_zero h0, h1⟩
      · next h1 =>
        split at h
        · simp at h
        · split at h <;> simp at h
  · intro h
    simp only [validate_pdf] at h
    split at h
    · simp at h
    · next h0 =>
      split at h
      · simp at h
      · next h1 =>
        split at h
        · exact ⟨Nat.pos_of_ne_zero h0, by omega⟩
        · split at h <;> simp at h
  · intro h
    simp only [validate_pdf] at h
    split at h
    · simp at h
    · next h0 =>
      split at h
      · simp at h
      · next h1 =>
        split at h
        · simp at h
        · next h2 =>
          exact ⟨Nat.pos_of_ne_zero h0, by omega, by simpa using h2⟩

theorem validator_check_order_witness :
    validate_pdf 1000 50 (some ⟨[], 0⟩) = .error .emptyFile ∧
    validate_pdf 1000 50 (some ⟨[], 0⟩) ≠ .error .invalidHeader :=
  ⟨(validator_check_order 1000 50 ⟨[], 0⟩).2.1 rfl,
   (validator_check_order 1000 50 ⟨[], 0⟩).2.2.1 rfl⟩

/-- Outcome of the external Docling converter inside
`DoclingEngine.parse_pdf`: it either returns a document or raises some
parser-internal exception carrying a message. -/
inductive ParserRun where
  | succeeds
  | raises (msg : String)
deriving DecidableEq, Repr

/-- `DoclingEngine.parse_pdf`: a `PDFValidationError` from `_validate_pdf`
is caught and turned into `None` (`.ok none`, skip); any other exception —
here, the parser raising — is wrapped and re-raised as the distinct
`PDFParsingException` (`.error`); success yields content (`.ok (some ())`,
the mapped document content itself is irrelevant to the error contract). -/
def parse_pdf (max_file_size_bytes max_pages : ℕ)
    (file : Option PdfFileOnDisk) (parser : ParserRun) :
    Except String (Option Unit) :=
  match validate_pdf max_file_size_bytes max_pages file with
  | .error _ => .ok none
  | .ok _ =>
    match parser with
    | .succeeds => .ok (some ())
    | .raises msg => .error ("Failed to parse: " ++ msg)

/-- `PDFTransformer._process_single_pdf` after the path check: the engine
result is transformed on success, while `except PDFValidationError` and the
final catch-all `except Exception` both `return None`. -/
def process_single_pdf (path_on_disk : Bool)
    (engine : Except String (Option Unit)) : Option Unit :=
  if path_on_disk = false then none
  else
    match engine with
    | .ok (some c) => some c
    | .ok none => none
    | .error _ => none

/-- The C9 claim as stated: an unexpected parser exception is surfaced to
the per-document caller — the caller of `_process_single_pdf` can
distinguish it from a validation skip. -/
def ParseFailureSurfaced : Prop :=
  ∀ (ms mp : ℕ) (f g : Option PdfFileOnDisk) (msg : String),
    validate_pdf ms mp f = .ok () →
    validate_pdf ms mp g ≠ .ok () →
    process_single_pdf true (parse_pdf ms mp f (.raises msg)) ≠
      process_single_pdf true (parse_pdf ms mp g .succeeds)

/-- A well-formed one-page PDF file: magic header, within all limits. -/
def okPdfFile : PdfFileOnDisk :=
  ⟨[0x25, 0x50, 0x44, 0x46, 0x2D, 0x31, 0x2E, 0x35], 1⟩

/-- C9 counterexample: `_process_single_pdf` maps a wrapped
`PDFParsingException` to `None` — exactly what a validation skip yields, so
the parse failure is swallowed there, not surfaced to its caller. -/
theorem parse_failure_surfaced_cex : ¬ ParseFailureSurfaced := by
  intro h
  have := h 1000 50 (some okPdfFile) none "boom" rfl (by simp [validate_pdf])
  exact this rfl

/-- C9 amended: `parse_pdf` wraps an unexpected parser exception and
re-raises it as the distinct `PDFParsingException` (a validation failure
yields `None` instead), but `_process_single_pdf` catches every exception
and returns `None`, so at the transformer level the parse failure is logged
and swallowed, indistinguishable from a validation skip. -/
theorem parse_failure_wrapped_then_swallowed (ms mp : ℕ)
    (f : Option PdfFileOnDisk) (msg : String)
    (hv : validate_pdf ms mp f = .ok ()) :
    parse_pdf ms mp f (.raises msg) = .error ("Failed to parse: " ++ msg) ∧
    (∀ g e, validate_pdf ms mp g = .error e →
      parse_pdf ms mp g (.raises msg) = .ok none) ∧
    process_single_pdf true (parse_pdf ms mp f (.raises msg)) = none ∧
    process_single_pdf true (parse_pdf ms mp f (.raises msg)) =
      process_single_pdf true (.ok none) := by
  have h1 : parse_pdf ms mp f (.raises msg) =
      .error ("Failed to parse: " ++ msg) := by
    simp only [parse_pdf, hv]
  refine ⟨h1, ?_, ?_, ?_⟩
  · intro g e hg
    simp only [parse_pdf, hg]
  · rw [h1]; rfl
  · rw [h1]; rfl

theorem parse_failure_wrapped_then_swallowed_witness :
    parse_pdf 1000 50 (some okPdfFile) (.raises "boom") =
      .error ("Failed to parse: " ++ "boom") ∧
    process_single_pdf true
      (parse_pdf 1000 50 (some okPdfFile) (.raises "boom")) = none := by
  have h := parse_failure_wrapped_then_swallowed 1000 50 (some okPdfFile)
    "boom" rfl
  exact ⟨h.1, h.2.2.1⟩

/-! ### Backoff — `src/custom/embedder/jina.py`,
`JinaEmbeddingsService._compute_backoff` -/

/-- `_compute_backoff`: `base = base_backoff * 2 ** (attempt - 1)` plus
`random.uniform(0, base * 0.3)`.  The randomness is made explicit:
`rnd` stands for the underlying `random.random()` draw, so
`random.uniform(0, b) = rnd * b` with `0 ≤ rnd < 1`. -/
def compute_backoff (base_backoff : ℚ) (attempt : ℕ) (rnd : ℚ) : ℚ :=
  let base := base_backoff * 2 ^ (attempt - 1)
  base + rnd * (base * (3 / 10))

/-- C4: for every 1-based attempt `n` and base delay `b ≥ 0`, the computed
delay is `b * 2^(n-1)` plus a jitter in `[0, 0.3 * b * 2^(n-1)]`; for
`attempt = 3`, `base = 1.0` the delay lies in `[4.0, 5.2)`. -/
theorem compute_backoff_bounds (b : ℚ) (n : ℕ) (rnd : ℚ)
    (hb : 0 ≤ b) (hr0 : 0 ≤ rnd) (hr1 : rnd < 1) :
    (∃ jitter, compute_backoff b n rnd = b * 2 ^ (n - 1) + jitter ∧
      0 ≤ jitter ∧ jitter ≤ (3 / 10) * (b * 2 ^ (n - 1))) ∧
    (b = 1 → n = 3 →
      4 ≤ compute_backoff b n rnd ∧ compute_backoff b n rnd < 52 / 10) := by
  have hbase : (0 : ℚ) ≤ b * 2 ^ (n - 1) := by positivity
  constructor
  · refine ⟨rnd * (b * 2 ^ (n - 1) * (3 / 10)), rfl, by positivity, ?_⟩
    calc rnd * (b * 2 ^ (n - 1) * (3 / 10))
        ≤ 1 * (b * 2 ^ (n - 1) * (3 / 10)) := by
          apply mul_le_mul_of_nonneg_right (le_of_lt hr1)
          positivity
      _ = (3 / 10) * (b * 2 ^ (n - 1)) := by ring
  · rintro rfl rfl
    simp only [compute_backoff]
    norm_num
    constructor
    · nlinarith
    · nlinarith

theorem compute_backoff_bounds_witness :
    (0 : ℚ) ≤ 1 ∧ (0 : ℚ) ≤ 1 / 2 ∧ (1 / 2 : ℚ) < 1 ∧
    4 ≤ compute_backoff 1 3 (1 / 2) ∧ compute_backoff 1 3 (1 / 2) < 52 / 10 :=
  ⟨by norm_num, by norm_num, by norm_num,
   (compute_backoff_bounds 1 3 (1 / 2) (by norm_num) (by norm_num)
     (by norm_num)).2 rfl rfl⟩

/-! ### Rate limiting — `src/custom/utils/resilience.py`, `RateLimiter` -/

/-- `RateLimiter` state: the configured minimum interval and the timestamp
recorded by the previous `throttle` (initialized to `0`). -/
structure RateLimiter where
  delay : ℚ
  last_call : ℚ

/-- `RateLimiter.__init__(delay_seconds)`. -/
def RateLimiter.init (delay_seconds : ℚ) : RateLimiter :=
  ⟨delay_seconds, 0⟩

/-- One `throttle()` call that begins at wall-clock time `now`: with
`elapsed = now - last_call`, it sleeps `delay - elapsed` when
`elapsed < delay`, then stores the current time as the new `last_call`.
Returns the time at which the call returns together with the updated state.
The body runs entirely under `async with self.lock`, so concurrent callers
serialize and are modeled as a sequence of these atomic calls. -/
def RateLimiter.throttle (s : RateLimiter) (now : ℚ) : ℚ × RateLimiter :=
  let elapsed := now - s.last_call
  let ret := if elapsed < s.delay then now + (s.delay - elapsed) else now
  (ret, ⟨s.delay, ret⟩)

/-- Whatever time a `throttle` call starts, it cannot return earlier than
`last_call + delay` of the state it sees. -/
theorem throttle_return_lower_bound (s : RateLimiter) (now : ℚ) :
    s.last_call + s.delay ≤ (s.throttle now).1 := by
  simp only [RateLimiter.throttle]
  by_cases h : now - s.last_call < s.delay
  · rw [if_pos h]
    linarith
  · rw [if_neg h]
    push_neg at h
    linarith

/-- C5: (a) on a fresh clock, a first call at any realistic time
(`delay ≤ now₀`, i.e. at least `delay` after the epoch `time.time()`
origin) does not block — it returns at `now₀` itself; (b) for two
consecutive completed calls — the second seeing the state the first left
behind — at least `delay` elapses between the first return and the second
return, whatever the call times are.  The `asyncio.Lock` held across the
check-wait-update makes each call atomic, which is what lets concurrent
callers be modeled as this sequence of calls. -/
theorem rate_limiter_spacing (d now₀ now₁ now₂ : ℚ) (s : RateLimiter)
    (hfirst : d ≤ now₀) :
    ((RateLimiter.init d).throttle now₀).1 = now₀ ∧
    (s.throttle now₁).1 + s.delay ≤ ((s.throttle now₁).2.throttle now₂).1 := by
  constructor
  · simp only [RateLimiter.init, RateLimiter.throttle]
    rw [if_neg (by simp only [sub_zero]; linarith)]
  · exact throttle_return_lower_bound (s.throttle now₁).2 now₂

theorem rate_limiter_spacing_witness :
    ((RateLimiter.init (1 / 5)).throttle 1).1 = 1 ∧
    ((RateLimiter.init (1 / 5)).throttle 1).1 +
        (RateLimiter.init (1 / 5)).delay ≤
      (((RateLimiter.init (1 / 5)).throttle 1).2.throttle 1).1 :=
  rate_limiter_spacing (1 / 5) 1 1 1 (RateLimiter.init (1 / 5)) (by norm_num)

/-! ### Downloader — `src/custom/extractors/arxiv/downloader.py`,
`ArxivDownloader.download` -/

/-- What one download attempt's `async with client.stream(...)` block does:
it either streams the whole payload, fails in `raise_for_status()` before
the file is opened, or raises mid-stream after `open(pdf_path, "wb")` has
truncated the file and written a byte prefix. -/
inductive StreamEvent where
  | success (payload : List ℕ)
  | httpStatusError
  | streamBroken (written : List ℕ)
deriving DecidableEq, Repr

/-- The `for attempt in range(1, max_retries + 1)` loop of
`ArxivDownloader.download`.  The second component tracks the byte content
at the final cached path `pdf_path` (`none` = no file): the code opens
`pdf_path` itself in `"wb"` mode, so a mid-stream failure leaves the
written prefix there; nothing is ever deleted.  The first component is the
returned value (`some payload` for the returned `Path`, `none` for the
failure sentinel). -/
def download_attempts (max_retries : ℕ) (stream : ℕ → StreamEvent) :
    ℕ → Option (List ℕ) → Option (List ℕ) × Option (List ℕ)
  | attempt, file =>
    if h : max_retries < attempt then (none, file)
    else
      match stream attempt with
      | .success payload => (some payload, some payload)
      | .httpStatusError =>
        if attempt = max_retries then (none, file)
        else download_attempts max_retries stream (attempt + 1) file
      | .streamBroken written =>
        if attempt = max_retries then (none, some written)
        else download_attempts max_retries stream (attempt + 1) (some written)
termination_by attempt _ => max_retries + 1 - attempt

/-- `ArxivDownloader.download` for a paper with both keys present: return
the cached file untouched when it exists and `force` is false, otherwise
run the retry loop (rate limiting only delays and is irrelevant to file
contents). -/
def download (max_retries : ℕ) (stream : ℕ → StreamEvent) (force : Bool)
    (cached : Option (List ℕ)) : Option (List ℕ) × Option (List ℕ) :=
  if cached.isSome ∧ force = false then (cached, cached)
  else download_attempts max_retries stream 1 cached

/-- The C1 claim as stated: after any `download` run, the final cached path
holds either what it held before or the complete payload of some successful
stream — never a partially written prefix. -/
def NeverTruncated (max_retries : ℕ) (stream : ℕ → StreamEvent)
    (force : Bool) (cached : Option (List ℕ)) : Prop :=
  (download max_retries stream force cached).2 = cached ∨
  ∃ a payload, stream a = .success payload ∧
    (download max_retries stream force cached).2 = some payload

/-- C1 counterexample: with one retry and a stream that dies after one
byte, `download` returns the failure sentinel yet leaves the one-byte
truncated file at the final cached path — there is no temporary file and no
discard-on-error in `ArxivDownloader.download`. -/
theorem download_truncation_cex :
    ¬ NeverTruncated 1 (fun _ => .streamBroken [37]) false none := by
  intro h
  have heval : (download 1 (fun _ => .streamBroken [37]) false none).2 =
      some [37] := by
    rw [download, if_neg (by simp), download_attempts]
    simp
  rcases h with h | ⟨a, payload, ha, _⟩
  · rw [heval] at h
    cases h
  · cases ha

/-- C1 amended: `download` streams straight into the final cached path; a
mid-stream exception leaves the partial bytes there (a later attempt
rewrites the file from scratch), so when every attempt breaks mid-stream
the call returns the failure sentinel while the final cached path holds the
last attempt's truncated prefix. -/
theorem download_partial_file_remains (max_retries : ℕ)
    (stream : ℕ → StreamEvent) (w : ℕ → List ℕ) (hmr : 1 ≤ max_retries)
    (hs : ∀ a, stream a = .streamBroken (w a)) :
    download max_retries stream false none =
      (none, some (w max_retries)) := by
  have main : ∀ k attempt file, attempt + k = max_retries →
      download_attempts max_retries stream attempt file =
        (none, some (w max_retries)) := by
    intro k
    induction k with
    | zero =>
      intro attempt file h
      have ha : attempt = max_retries := by omega
      subst ha
      rw [download_attempts, dif_neg (by omega), hs attempt]
      simp
    | succ k ih =>
      intro attempt file h
      have hne : attempt = max_retries ↔ False := by
        constructor
        · omega
        · intro hf
          cases hf
      rw [download_attempts, dif_neg (by omega), hs attempt]
      simp only [hne, if_false]
      exact ih (attempt + 1) (some (w attempt)) (by omega)
  rw [download, if_neg (by simp)]
  exact main (max_retries - 1) 1 none (by omega)

theorem download_partial_file_remains_witness :
    download 1 (fun _ => StreamEvent.streamBroken [37]) false none =
      (none, some [37]) :=
  download_partial_file_remains 1 (fun _ => .streamBroken [37])
    (fun _ => [37]) (by decide) (fun _ => rfl)

/-! ### Embedding client — `src/custom/embedder/jina.py`,
`JinaEmbeddingsService._post` / `embed_passages` -/

/-- What one `client.post` inside `_post` can produce: an HTTP response
with a status code and (for 2xx) a parsed body of one embedding per input,
or an `httpx.TimeoutException`, or another `httpx.HTTPError`. -/
inductive AttemptOutcome where
  | status (code : ℕ) (body : List (List ℚ))
  | timeout
  | networkError
deriving Repr

/-- Errors `_post` can propagate: a non-retriable 4xx other than 429
(`response.raise_for_status()` re-raised), or
`RuntimeError("Max retries exceeded for embeddings request")` after the
loop. -/
inductive PostError where
  | fatalStatus (code : ℕ)
  | retriesExhausted
deriving DecidableEq, Repr

/-- The `for attempt in range(1, max_retries + 1)` loop of `_post`, with
`oracle attempt` the response of the request issued on that attempt.
A 429 sleeps (Retry-After or computed backoff) and retries; for any other
non-2xx status `response.raise_for_status()` raises `HTTPStatusError`,
which the handler retries (after a backoff sleep) when the status is 5xx
and re-raises otherwise; a 2xx parses the body; a timeout or other network
error sleeps the computed backoff and retries.  Sleeping only affects
timing, not the result. -/
def post_loop (max_retries : ℕ) (oracle : ℕ → AttemptOutcome)
    (attempt : ℕ) : Except PostError (List (List ℚ)) :=
  if h : max_retries < attempt then .error .retriesExhausted
  else
    match oracle attempt with
    | .status code body =>
      if code = 429 then post_loop max_retries oracle (attempt + 1)
      else if code < 200 ∨ 300 ≤ code then
        if 500 ≤ code ∧ code < 600 then post_loop max_retries oracle (attempt + 1)
        else .error (.fatalStatus code)
      else .ok body
    | .timeout => post_loop max_retries oracle (attempt + 1)
    | .networkError => post_loop max_retries oracle (attempt + 1)
termination_by max_retries + 1 - attempt

/-- `JinaEmbeddingsService._post`: the attempt loop started at 1. -/
def post (max_retries : ℕ) (oracle : ℕ → AttemptOutcome) :
    Except PostError (List (List ℚ)) :=
  post_loop max_retries oracle 1

/-- The `for i in range(0, len(texts), batch_size)` loop of
`embed_passages`: the oracle maps each request's `input` slice and attempt
number to its outcome.  Returns the requests issued (each one's `input`
list, in order, up to and including a failing slice) and either all
vectors in input order or the first slice's propagated error.  `range`
demands a positive step, hence `hbs`; the service default is 100. -/
def embed_loop (max_retries batch_size : ℕ) (hbs : 0 < batch_size)
    (oracle : List String → ℕ → AttemptOutcome) (ts : List String) :
    List (List String) × Except PostError (List (List ℚ)) :=
  if hts : ts = [] then ([], .ok [])
  else
    let batch := ts.take batch_size
    match post max_retries (oracle batch) with
    | .error e => ([batch], .error e)
    | .ok body =>
      let r := embed_loop max_retries batch_size hbs oracle (ts.drop batch_size)
      (batch :: r.1, r.2.map (fun rest => body ++ rest))
termination_by ts.length
decreasing_by
  have : ts.length ≠ 0 := fun hn => hts (List.eq_nil_of_length_eq_zero hn)
  simp only [List.length_drop]
  omega

/-- `JinaEmbeddingsService.embed_passages`: the returned vectors. -/
def embed_passages (max_retries batch_size : ℕ) (hbs : 0 < batch_size)
    (oracle : List String → ℕ → AttemptOutcome) (texts : List String) :
    Except PostError (List (List ℚ)) :=
  (embed_loop max_retries batch_size hbs oracle texts).2

/-- The `input` payloads of the requests `embed_passages` issues. -/
def embed_requests (max_retries batch_size : ℕ) (hbs : 0 < batch_size)
    (oracle : List String → ℕ → AttemptOutcome) (texts : List String) :
    List (List String) :=
  (embed_loop max_retries batch_size hbs oracle texts).1

/-- Unfolding of `embed_loop` on a non-empty input. -/
theorem embed_loop_cons (max_retries batch_size : ℕ) (hbs : 0 < batch_size)
    (oracle : List String → ℕ → AttemptOutcome) (ts : List String)
    (hts : ts ≠ []) :
    embed_loop max_retries batch_size hbs oracle ts =
      match post max_retries (oracle (ts.take batch_size)) with
      | .error e => ([ts.take batch_size], .error e)
      | .ok body =>
        let r := embed_loop max_retries batch_size hbs oracle
          (ts.drop batch_size)
        (ts.take batch_size :: r.1, r.2.map (fun rest => body ++ rest)) := by
  rw [embed_loop, dif_neg hts]

/-- If every attempt the loop can still make comes back 5xx, `_post` ends
with the distinct retries-exhausted error. -/
theorem post_loop_all_5xx (max_retries : ℕ) (oracle : ℕ → AttemptOutcome)
    (h5 : ∀ a, a ≤ max_retries → ∃ code body,
      oracle a = .status code body ∧ 500 ≤ code ∧ code < 600) :
    ∀ n attempt, max_retries + 1 - attempt ≤ n →
      post_loop max_retries oracle attempt = .error .retriesExhausted := by
  intro n
  induction n with
  | zero =>
    intro attempt h
    rw [post_loop, dif_pos (by omega)]
  | succ n ih =>
    intro attempt h
    by_cases ha : max_retries < attempt
    · rw [post_loop, dif_pos ha]
    · obtain ⟨code, body, hc, hc5, hc6⟩ := h5 attempt (by omega)
      rw [post_loop, dif_neg ha, hc]
      have h429 : code = 429 ↔ False := by
        constructor
        · omega
        · intro hf
          cases hf
      have hraise : (code < 200 ∨ 300 ≤ code) ↔ True := by
        constructor
        · intro _
          trivial
        · intro _
          omega
      have h5xx : (500 ≤ code ∧ code < 600) ↔ True := by
        constructor
        · intro _
          trivial
        · intro _
          exact ⟨hc5, hc6⟩
      simp only [h429, hraise, h5xx, if_false, if_true]
      exact ih (attempt + 1) (by omega)

/-- C3: if the slices before slice `k` all succeed and slice `k`'s request
comes back 5xx on every attempt the retry loop makes, `embed_passages`
propagates the distinct retries-exhausted error and returns no vectors at
all — no partial result for the earlier successful slices, no silent skip
of the failing slice. -/
theorem embed_batch_retries_exhausted (max_retries batch_size : ℕ)
    (hbs : 0 < batch_size) (oracle : List String → ℕ → AttemptOutcome)
    (texts : List String) (k : ℕ)
    (hk : k * batch_size < texts.length)
    (hbefore : ∀ j, j < k → ∃ body,
      post max_retries
        (oracle ((texts.drop (j * batch_size)).take batch_size)) = .ok body)
    (h5 : ∀ a, a ≤ max_retries → ∃ code body,
      oracle ((texts.drop (k * batch_size)).take batch_size) a =
        .status code body ∧ 500 ≤ code ∧ code < 600) :
    embed_passages max_retries batch_size hbs oracle texts =
      .error .retriesExhausted := by
  induction k generalizing texts with
  | zero =>
    have hts : texts ≠ [] := by
      intro he
      rw [he] at hk
      simp at hk
    unfold embed_passages
    rw [embed_loop_cons _ _ _ _ _ hts]
    have hpost : post max_retries (oracle (texts.take batch_size)) =
        .error .retriesExhausted := by
      apply post_loop_all_5xx max_retries _ _ (max_retries + 1) 1 (by omega)
      simpa using h5
    rw [hpost]
  | succ k ih =>
    have hts : texts ≠ [] := by
      intro he
      rw [he] at hk
      simp at hk
    obtain ⟨body0, hb0⟩ := hbefore 0 (by omega)
    simp only [Nat.zero_mul, List.drop_zero] at hb0
    unfold embed_passages
    rw [embed_loop_cons _ _ _ _ _ hts, hb0]
    have hrec := ih (texts.drop batch_size)
      (by
        rw [List.length_drop]
        have : (k + 1) * batch_size = k * batch_size + batch_size := by ring
        omega)
      (by
        intro j hj
        have hsh : ((texts.drop batch_size).drop (j * batch_size)) =
            texts.drop ((j + 1) * batch_size) := by
          rw [List.drop_drop]
          congr 1
          ring
        rw [hsh]
        exact hbefore (j + 1) (by omega))
      (by
        have hsh : ((texts.drop batch_size).drop (k * batch_size)) =
            texts.drop ((k + 1) * batch_size) := by
          rw [List.drop_drop]
          congr 1
          ring
        rw [hsh]
        exact h5)
    unfold embed_passages at hrec
    simp only [hrec, Except.map]

theorem embed_batch_retries_exhausted_witness :
    embed_passages 3 2 (by norm_num)
      (fun _ _ => .status 500 []) ["t1"] = .error .retriesExhausted := by
  have h := embed_batch_retries_exhausted 3 2 (by norm_num)
    (fun _ _ => .status 500 []) ["t1"] 0 (by norm_num)
    (by
      intro j hj
      cases hj)
    (by
      intro a ha
      exact ⟨500, [], rfl, by norm_num, by norm_num⟩)
  exact h

/-- Evaluation of `embed_loop` on the empty input: `range(0, 0, bs)` is
empty, no request is issued. -/
theorem embed_loop_nil (max_retries batch_size : ℕ) (hbs : 0 < batch_size)
    (oracle : List String → ℕ → AttemptOutcome) :
    embed_loop max_retries batch_size hbs oracle [] = ([], .ok []) := by
  rw [embed_loop, dif_pos rfl]

/-- A first-attempt 200 with a parsed body makes `_post` return it. -/
theorem post_ok_200 (max_retries : ℕ) (body : List (List ℚ))
    (hmr : 1 ≤ max_retries) (oracle : ℕ → AttemptOutcome)
    (h : oracle 1 = .status 200 body) :
    post max_retries oracle = .ok body := by
  unfold post
  rw [post_loop, dif_neg (by omega), h]
  norm_num

/-- The C8 claim as stated: the embedding client explicitly skips empty or
whitespace-only texts, so no issued request's `input` ever carries one (no
request slot is consumed for them). -/
def NoSlotForEmptyText : Prop :=
  ∀ (max_retries batch_size : ℕ) (hbs : 0 < batch_size)
    (oracle : List String → ℕ → AttemptOutcome) (texts : List String)
    (s : List String),
    s ∈ embed_requests max_retries batch_size hbs oracle texts →
    ∀ t ∈ s, pyStrip t ≠ ""

/-- C8 counterexample: `embed_passages` performs no filtering whatsoever —
a lone empty text is sent as the request's `input`, consuming a request
slot. -/
theorem embed_empty_text_not_skipped_cex : ¬ NoSlotForEmptyText := by
  intro h
  have hreq : embed_requests 3 2 (by norm_num)
      (fun _ _ => .status 200 [[1]]) [""] = [[""]] := by
    unfold embed_requests
    rw [embed_loop_cons _ _ _ _ _ (by simp)]
    rw [post_ok_200 3 [[1]] (by norm_num) _ rfl]
    simp [embed_loop_nil]
  have hmem : [""] ∈ embed_requests 3 2 (by norm_num)
      (fun _ _ => .status 200 [[1]]) [""] := by
    rw [hreq]
    exact List.mem_singleton_self _
  exact h 3 2 (by norm_num) (fun _ _ => .status 200 [[1]]) [""] [""] hmem ""
    (List.mem_singleton_self _) rfl

/-- C8 amended: `embed_passages` does not filter empty or whitespace-only
texts.  Every input text — empty ones included — occupies a slot in its
slice's request, and when the provider answers each request with one vector
per input, the call returns one vector per input text, the empty ones
getting vectors like any other.  (The expectation that empty texts are
skipped belongs to the separate txtai embedder, whose module is absent from
the repository snapshot; its tests assert that behavior.) -/
theorem embed_passages_no_empty_filter (max_retries batch_size : ℕ)
    (hbs : 0 < batch_size) (v : String → List ℚ) (texts : List String)
    (hmr : 1 ≤ max_retries) :
    embed_passages max_retries batch_size hbs
      (fun s _ => .status 200 (s.map v)) texts = .ok (texts.map v) ∧
    (embed_requests max_retries batch_size hbs
      (fun s _ => .status 200 (s.map v)) texts).flatten = texts := by
  have main : ∀ n ts, List.length ts ≤ n →
      (embed_loop max_retries batch_size hbs
        (fun s _ => .status 200 (s.map v)) ts).2 = .ok (ts.map v) ∧
      (embed_loop max_retries batch_size hbs
        (fun s _ => .status 200 (s.map v)) ts).1.flatten = ts := by
    intro n
    induction n with
    | zero =>
      intro ts hlen
      have hts : ts = [] := List.eq_nil_of_length_eq_zero (by omega)
      subst hts
      rw [embed_loop_nil]
      exact ⟨rfl, rfl⟩
    | succ n ih =>
      intro ts hlen
      by_cases hts : ts = []
      · subst hts
        rw [embed_loop_nil]
        exact ⟨rfl, rfl⟩
      · have hlen2 : (ts.drop batch_size).length ≤ n := by
          have hne : ts.length ≠ 0 := fun hn => hts
            (List.eq_nil_of_length_eq_zero hn)
          rw [List.length_drop]
          omega
        obtain ⟨ih1, ih2⟩ := ih (ts.drop batch_size) hlen2
        rw [embed_loop_cons _ _ _ _ _ hts]
        rw [post_ok_200 max_retries ((ts.take batch_size).map v) hmr _ rfl]
        dsimp only
        constructor
        · rw [ih1]
          simp only [Except.map]
          rw [← List.map_append, List.take_append_drop]
        · rw [List.flatten_cons, ih2, List.take_append_drop]
  obtain ⟨h1, h2⟩ := main texts.length texts le_rfl
  exact ⟨h1, h2⟩

theorem embed_passages_no_empty_filter_witness :
    embed_passages 3 2 (by norm_num)
      (fun s _ => .status 200 (s.map (fun _ => [1]))) [""] = .ok [[1]] ∧
    (embed_requests 3 2 (by norm_num)
      (fun s _ => .status 200 (s.map (fun _ => [1]))) [""]).flatten = [""] := by
  have h := embed_passages_no_empty_filter 3 2 (by norm_num)
    (fun _ => [1]) [""] (by norm_num)
  simpa using h

end HealthConnector
